import Mathlib

/-!
Verification of the calendar event materialization, day-bucketing and
meal-title parsing core of the harvardstreethq household-organizer app.

The embedding models the relevant TypeScript/JavaScript sources:
* `src/src/components/Calendar.tsx` — `eventsByDay` (the day-bucketing
  reduce over calendar events) and the per-day `dayEvents` sort;
* `src/src/components/MealPlan.tsx` — `eventsByDay` (meal view bucketing)
  and `parseMeal` (the meal-slot title parser);
* `netlify/functions` iCalendar proxy — the event id fallback in the
  normalizing `handler`.

Platform (JS runtime / `date-fns`) dates are modelled as minutes since an
epoch (UTC); the host's local timezone is a constant offset `tz` in minutes
east of UTC (DST transitions are outside the model).  `parseISO` is embedded
as a parser over the ISO-8601 forms produced by the app's upstream proxies
(`YYYY-MM-DD`, and `YYYY-MM-DDTHH:MM[:SS[.fff]][Z|±HH:MM]`); seconds are
dropped from the parsed value, which is sound here because every use in the
modelled code truncates to day granularity before comparing.
-/

/-- JS truthiness of an optional string field: `undefined` and `''` are falsy. -/
def strTruthy : Option String → Bool
  | none => false
  | some s => !(s == "")

/-- JS `a || b` on two optional string fields: the first operand when truthy,
otherwise the second operand's value. -/
def jsOr (a b : Option String) : Option String :=
  if strTruthy a then a else b

/-- Gregorian leap-year test. -/
def isLeap (y : Int) : Bool :=
  (y % 4 == 0 && y % 100 != 0) || y % 400 == 0

/-- Number of days in a month (1-12). -/
def daysInMonth (y m : Int) : Int :=
  if m = 2 then (if isLeap y then 29 else 28)
  else if m = 4 ∨ m = 6 ∨ m = 9 ∨ m = 11 then 30
  else 31

/-- Civil day number of a Gregorian date (days since 1970-01-01, which is day 0).
Closed-form days-from-civil computation. -/
def daysFromCivil (y m d : Int) : Int :=
  let y2 := if m ≤ 2 then y - 1 else y
  let era := y2.fdiv 400
  let yoe := y2 - era * 400
  let mp := (m + 9) % 12
  let doy := (153 * mp + 2).fdiv 5 + d - 1
  let doe := yoe * 365 + yoe.fdiv 4 - yoe.fdiv 100 + doy
  era * 146097 + doe - 719468

/-- Value of a decimal digit character, as an Int. -/
def digitVal (c : Char) : Int := (c.toNat : Int) - 48

/-- Two decimal digit characters as a number (00-99). -/
def twoDigits (a b : Char) : Option Int :=
  if a.isDigit && b.isDigit then some (digitVal a * 10 + digitVal b) else none

/-- Four decimal digit characters as a number (0000-9999). -/
def fourDigits (a b c d : Char) : Option Int :=
  if a.isDigit && b.isDigit && c.isDigit && d.isDigit then
    some (digitVal a * 1000 + digitVal b * 100 + digitVal c * 10 + digitVal d)
  else none

/-- Validated civil day number of a year/month/day triple; `none` when the
month or day-of-month is out of range (an invalid date). -/
def civilDay (y m d : Int) : Option Int :=
  if 1 ≤ m ∧ m ≤ 12 ∧ 1 ≤ d ∧ d ≤ daysInMonth y m then some (daysFromCivil y m d)
  else none

/-- Parse a `YYYY-MM-DD` date string to its civil day number. -/
def parseDateCivil (s : String) : Option Int :=
  match s.data with
  | [y1, y2, y3, y4, '-', m1, m2, '-', d1, d2] =>
    (fourDigits y1 y2 y3 y4).bind fun y =>
      (twoDigits m1 m2).bind fun m =>
        (twoDigits d1 d2).bind fun d => civilDay y m d
  | _ => none

/-- Parse a trailing UTC-offset designator: `[]` means no designator (a local
wall-clock time), `Z` means UTC, `±HH:MM` a fixed offset in minutes east. -/
def parseOffEnd : List Char → Option (Option Int)
  | [] => some none
  | ['Z'] => some (some 0)
  | ['+', a, b, ':', c, d] =>
    (twoDigits a b).bind fun hh => (twoDigits c d).map fun mm => some (hh * 60 + mm)
  | ['-', a, b, ':', c, d] =>
    (twoDigits a b).bind fun hh => (twoDigits c d).map fun mm => some (-(hh * 60 + mm))
  | _ => none

/-- Parse the tail of a date-time after `HH:MM`: optional `:SS` seconds,
optional `.fff` fraction, then the offset designator.  Seconds and fractions
are validated but dropped (the modelled code only ever compares at day
granularity). -/
def parseSecsOff : List Char → Option (Option Int)
  | ':' :: a :: b :: rest =>
    (twoDigits a b).bind fun s =>
      if s ≤ 59 then
        match rest with
        | '.' :: rest2 =>
          if rest2.takeWhile Char.isDigit = [] then none
          else parseOffEnd (rest2.dropWhile Char.isDigit)
        | _ => parseOffEnd rest
      else none
  | rest => parseOffEnd rest

/-- Embedding of `date-fns` `parseISO` for the host environment with constant
timezone offset `tz` (minutes east of UTC): the parsed JS `Date` as absolute
minutes since the epoch.  A date-only string parses to local midnight of that
date; a date-time with no offset designator is local wall-clock time; `Z` or
`±HH:MM` fix the offset.  Returns `none` for strings `parseISO` rejects
(an Invalid Date). -/
def parseISOMin (tz : Int) (s : String) : Option Int :=
  match s.data with
  | [y1, y2, y3, y4, '-', m1, m2, '-', d1, d2] =>
    (fourDigits y1 y2 y3 y4).bind fun y =>
      (twoDigits m1 m2).bind fun m =>
        (twoDigits d1 d2).bind fun d =>
          (civilDay y m d).map fun day => day * 1440 - tz
  | y1 :: y2 :: y3 :: y4 :: '-' :: m1 :: m2 :: '-' :: d1 :: d2 :: 'T' :: h1 :: h2 :: ':' :: n1 :: n2 :: rest =>
    (fourDigits y1 y2 y3 y4).bind fun y =>
      (twoDigits m1 m2).bind fun m =>
        (twoDigits d1 d2).bind fun d =>
          (civilDay y m d).bind fun day =>
            (twoDigits h1 h2).bind fun hh =>
              (twoDigits n1 n2).bind fun mm =>
                if hh ≤ 23 ∧ mm ≤ 59 then
                  (parseSecsOff rest).map fun off =>
                    match off with
                    | none => day * 1440 + hh * 60 + mm - tz
                    | some o => day * 1440 + hh * 60 + mm - o
                else none
  | _ => none

/-- Local civil day of an absolute instant, in the `tz` timezone: the JS
`setHours(0,0,0,0)` truncation / `format(d, 'yyyy-MM-dd')` day key.  Day keys
are modelled by their day numbers (`format` is injective on days). -/
def dayOfMin (tz : Int) (m : Int) : Int := (m + tz).fdiv 1440

/-- The inclusive day range `[a, a+1, ..., b]` (empty when `b < a`): the days
visited by the `while (currentDate <= finalEndDate)` loop stepping by
`addDays(currentDate, 1)`. -/
def daysFromTo (a b : Int) : List Int :=
  (List.range (b + 1 - a).toNat).map (fun (i : Nat) => a + (i : Int))

/-- The `start`/`end` sub-object of a calendar event: optional `dateTime` and
`date` ISO strings (`Calendar.tsx`, interface `CalendarEvent`). -/
structure EventTime where
  dateTime : Option String
  date : Option String
deriving DecidableEq

/-- A calendar event as consumed by `Calendar.tsx` (fields not read by the
modelled logic are omitted).  `endTime` models the `end` field, accessed in
the source only through `event.end?.`. -/
structure CalendarEvent where
  id : String
  summary : String
  start : EventTime
  endTime : Option EventTime
deriving DecidableEq

/-- The list of day keys a calendar event is pushed onto by the
`eventsByDay` reduce of `Calendar.tsx` (lines 241-285): the body of the
reduce for one event, returning the days its while-loop visits.
`none` parse results model JS Invalid Dates, whose NaN day comparisons make
the while-loop run zero times. -/
def spanDays (tz : Int) (ev : CalendarEvent) : List Int :=
  let start := jsOr ev.start.dateTime ev.start.date
  if strTruthy start = false then []
  else
    let endDate? := ev.endTime.bind EventTime.date
    let endDT? := ev.endTime.bind EventTime.dateTime
    let isAllDay := strTruthy ev.start.date && strTruthy endDate?
    let se : Option Int × Option Int :=
      if isAllDay && strTruthy ev.start.date then
        match ev.start.date with
        | some sds =>
          let s := parseISOMin tz sds
          (match endDate? with
           | some eds =>
             -- all-day: `end.date` is exclusive; `setDate(getDate() - 1)`
             (s, (parseISOMin tz eds).map (fun v => v - 1440))
           | none => (s, s))  -- unreachable: isAllDay requires a truthy end date
        | none => (none, none)  -- unreachable: isAllDay requires a truthy start date
      else if strTruthy ev.start.dateTime && strTruthy endDT? then
        match ev.start.dateTime, endDT? with
        | some sdt, some edt => (parseISOMin tz sdt, parseISOMin tz edt)
        | _, _ => (none, none)  -- unreachable under the branch condition
      else
        match start with
        | some ss =>
          let p := parseISOMin tz ss
          (p, p)
        | none => (none, none)  -- unreachable: start is truthy here
    match se.1, se.2 with
    | some a, some b => daysFromTo (dayOfMin tz a) (dayOfMin tz b)
    | _, _ => []

/-- A day-keyed bucket map, modelled as a function from day key to the bucket
list (a JS object used as a dictionary, with `push` appending). -/
def pushBucket {E : Type} (acc : Int → List E) (k : Int) (e : E) : Int → List E :=
  fun k2 => if k2 = k then acc k2 ++ [e] else acc k2

/-- `eventsByDay` of `Calendar.tsx`: the reduce pushing each event onto every
day bucket its span covers. -/
def eventsByDay (tz : Int) (events : List CalendarEvent) : Int → List CalendarEvent :=
  events.foldl
    (fun acc ev => (spanDays tz ev).foldl (fun a k => pushBucket a k ev) acc)
    (fun _ => [])

/-- The raw ISO start representation used as the sort key in `Calendar.tsx`
line 585-586: `a.start.dateTime || a.start.date || ''`. -/
def startStr (e : CalendarEvent) : String :=
  (jsOr e.start.dateTime e.start.date).getD ""

/-- The comparator of the per-day sort (`as.localeCompare(bs)` ascending),
modelled as string order: on the ISO-8601 strings compared here the default
collation agrees with code-unit order. -/
def startLE (a b : CalendarEvent) : Bool :=
  decide (startStr a ≤ startStr b)

/-- `dayEvents` of `Calendar.tsx` (lines 584-588): the bucket for a day key,
sorted ascending by raw start string.  JS `Array.prototype.sort` is a stable
sort, modelled by `List.mergeSort`. -/
def dayEvents (tz : Int) (events : List CalendarEvent) (k : Int) : List CalendarEvent :=
  (eventsByDay tz events k).mergeSort startLE

/-- The ASCII whitespace class of the JS regex `\s` (the Unicode space
characters beyond ASCII do not occur in the modelled titles). -/
def isSpaceJS (c : Char) : Bool :=
  c = ' ' || c = '\t' || c = '\n' || c = '\r' || c = '\x0b' || c = '\x0c'

/-- The character class of the JS regex `.` without the `s` flag: any
character except a line terminator. -/
def isDotJS (c : Char) : Bool :=
  !(c = '\n' || c = '\r')

/-- ASCII lowercasing of a character list (JS `toLowerCase` / the `i` regex
flag, on the ASCII titles in scope). -/
def lowerL (cs : List Char) : List Char := cs.map Char.toLower

/-- ASCII lowercasing of a string. -/
def lowerS (s : String) : String := String.mk (lowerL s.data)

/-- JS `String.prototype.trim`: strip leading and trailing whitespace. -/
def jsTrim (s : String) : String :=
  String.mk (((s.data.dropWhile isSpaceJS).reverse.dropWhile isSpaceJS).reverse)

/-- The fixed meal-slot vocabulary of the `parseMeal` regex alternation, in
alternation order. -/
def mealKeywords : List String := ["Breakfast", "Lunch", "Dinner", "Brunch", "Snack"]

/-- Try one alternative of the regex alternation at the head of `cs` with the
`i` flag: the matched slice as written in the input (capture group 1) and the
remaining characters. -/
def kwTry (cs : List Char) (kw : String) : Option (String × List Char) :=
  if lowerL (cs.take kw.length) = lowerL kw.data then
    some (String.mk (cs.take kw.length), cs.drop kw.length)
  else none

/-- Match the regex alternation `(Breakfast|Lunch|Dinner|Brunch|Snack)` with
the `i` flag at the head of `cs`, trying alternatives in order.  No vocabulary
word is a prefix of another, so at most one alternative matches at a
position. -/
def kwAt (cs : List Char) : Option (String × List Char) :=
  (mealKeywords.filterMap (kwTry cs)).head?

/-- Match `\s*(.+)` at the head of `cs` with backtracking: `\s*` is greedy but
gives characters back until the `.+` (one or more non-line-terminator
characters, greedy) can match; returns capture group 2. -/
def wsDotPlus : List Char → Option (List Char)
  | [] => none
  | c :: rest =>
    if isSpaceJS c then
      match wsDotPlus rest with
      | some g => some g
      | none => if isDotJS c then some ((c :: rest).takeWhile isDotJS) else none
    else if isDotJS c then some ((c :: rest).takeWhile isDotJS) else none

/-- Match `:?\s*(.+)` at the head of `cs`: the optional colon is consumed
greedily, retrying without it if the rest of the pattern then fails. -/
def matchAfterKw (cs : List Char) : Option (List Char) :=
  match cs with
  | ':' :: rest =>
    match wsDotPlus rest with
    | some g => some g
    | none => wsDotPlus cs
  | _ => wsDotPlus cs

/-- The unanchored search `summary.match(/(Breakfast|Lunch|Dinner|Brunch|Snack):?\s*(.+)/i)`:
try the pattern at each successive position (leftmost match), returning
capture groups 1 and 2. -/
def matchMeal : List Char → Option (String × List Char)
  | [] => none
  | c :: rest =>
    match kwAt (c :: rest) with
    | some (kw, after) =>
      match matchAfterKw after with
      | some g2 => some (kw, g2)
      | none => matchMeal rest
    | none => matchMeal rest

/-- A meal-plan event as consumed by `MealPlan.tsx` (interface `MealEvent`;
fields not read by the modelled logic are omitted).  `endTime` models the
optional `end` field. -/
structure MealEvent where
  id : String
  summary : String
  description : Option String
  start : EventTime
  endTime : Option EventTime
deriving DecidableEq

/-- The slot/name/description triple returned by `parseMeal`. -/
structure ParsedMeal where
  type : String
  name : String
  description : Option String
deriving DecidableEq

/-- `parseMeal` of `MealPlan.tsx` (lines 166-193): extract a meal slot and
name from the event summary, falling back to the `'Meal'` slot with the full
summary (or `'Untitled'`) as the name. -/
def parseMeal (ev : MealEvent) : ParsedMeal :=
  let summary := ev.summary
  let description := ev.description.getD ""
  match matchMeal summary.data with
  | some (kw, g2) =>
    let extractedName := jsTrim (String.mk g2)
    let hasAdditionalDescription : Bool :=
      !(description == "") && !(jsTrim description == jsTrim summary) &&
        !(lowerS (jsTrim description) == lowerS extractedName)
    { type := kw
      name := extractedName
      description := if hasAdditionalDescription then some description else none }
  | none =>
    let hasAdditionalDescription : Bool :=
      !(description == "") && !(jsTrim description == jsTrim summary)
    { type := "Meal"
      name := if summary == "" then "Untitled" else summary
      description := if hasAdditionalDescription then some description else none }

/-- Whether some position of `cs` starts with a vocabulary word
(case-insensitively): the titles on which the `parseMeal` regex can match at
all. -/
def hasKw : List Char → Bool
  | [] => false
  | c :: rest =>
    mealKeywords.any (fun kw => lowerL ((c :: rest).take kw.length) = lowerL kw.data)
      || hasKw rest

/-- The day key a meal event is bucketed under by `eventsByDay` of
`MealPlan.tsx` (lines 138-155): the local civil day of its raw start
(`dateTime` preferred over `date`); `none` when there is no truthy start or
`parseISO`/`format` fails (the event is skipped). -/
def mealStartDay (tz : Int) (ev : MealEvent) : Option Int :=
  let start := jsOr ev.start.dateTime ev.start.date
  if strTruthy start = false then none
  else
    match start with
    | some s => (parseISOMin tz s).map (dayOfMin tz)
    | none => none

/-- `eventsByDay` of `MealPlan.tsx`: the reduce pushing each event with a
parseable start onto the single bucket of its start day. -/
def mealEventsByDay (tz : Int) (events : List MealEvent) : Int → List MealEvent :=
  events.foldl
    (fun acc ev =>
      match mealStartDay tz ev with
      | none => acc
      | some k => pushBucket acc k ev)
    (fun _ => [])

/-- An event as produced by the iCalendar proxy's `ICAL.Event` accessor, with
the fields the normalizing `handler` reads for the id and title. -/
structure ICalParsedEvent where
  uid : Option String
  startDateStr : String
  summary : Option String
deriving DecidableEq

/-- The id assigned by the iCalendar proxy `handler`:
`event.uid || event.startDate.toString()`. -/
def icalEventId (e : ICalParsedEvent) : String :=
  match e.uid with
  | some u => if u == "" then e.startDateStr else u
  | none => e.startDateStr

lemma parseDateCivil_ne_empty {s : String} {d : Int} (h : parseDateCivil s = some d) :
    s ≠ "" := by
  intro he
  subst he
  simp [parseDateCivil] at h

lemma parseISOMin_ne_empty {tz : Int} {s : String} {v : Int}
    (h : parseISOMin tz s = some v) : s ≠ "" := by
  intro he
  subst he
  exact absurd h (by simp [parseISOMin])

lemma parseISOMin_of_dateCivil (tz : Int) {s : String} {d : Int}
    (h : parseDateCivil s = some d) :
    parseISOMin tz s = some (d * 1440 - tz) := by
  simp only [parseDateCivil] at h
  split at h
  case _ y1 y2 y3 y4 m1 m2 d1 d2 heq =>
    simp only [parseISOMin, heq]
    rw [Option.bind_eq_some] at h
    obtain ⟨y, hy, h⟩ := h
    rw [Option.bind_eq_some] at h
    obtain ⟨m, hm, h⟩ := h
    rw [Option.bind_eq_some] at h
    obtain ⟨dd, hdd, h⟩ := h
    simp [hy, hm, hdd, h]
  case _ => exact absurd h (by simp)

lemma strTruthy_of_ne {s : String} (h : s ≠ "") : strTruthy (some s) = true := by
  simp [strTruthy, h]

lemma strTruthy_none : strTruthy none = false := rfl

lemma strTruthy_jsOr_right (a : Option String) {s : String} (h : s ≠ "") :
    strTruthy (jsOr a (some s)) = true := by
  cases ha : strTruthy a with
  | true => simp [jsOr, ha]
  | false => simp [jsOr, ha, strTruthy_of_ne h]

lemma jsOr_left {s : String} (h : s ≠ "") (b : Option String) :
    jsOr (some s) b = some s := by
  simp [jsOr, strTruthy_of_ne h]

lemma dayOfMin_mul (tz ds : Int) : dayOfMin tz (ds * 1440 - tz) = ds := by
  unfold dayOfMin
  have h : ds * 1440 - tz + tz = ds * 1440 := by ring
  rw [h, Int.mul_fdiv_cancel _ (by norm_num)]

lemma daysFromTo_length (a b : Int) : (daysFromTo a b).length = (b + 1 - a).toNat := by
  unfold daysFromTo
  rw [List.length_map, List.length_range]

lemma daysFromTo_self (a : Int) : daysFromTo a a = [a] := by
  unfold daysFromTo
  have h : (a + 1 - a).toNat = 1 := by omega
  rw [h]
  simp [List.range_succ]

lemma daysFromTo_succ_self (a : Int) : daysFromTo a (a + 1) = [a, a + 1] := by
  unfold daysFromTo
  have h : (a + 1 + 1 - a).toNat = 2 := by omega
  rw [h]
  simp [List.range_succ]

/-- Core computation of the all-day branch of the `eventsByDay` reduce: with a
truthy start date parsing to civil day `ds` and a truthy end date parsing to
civil day `de`, the event is spread over days `ds .. de - 1`. -/
lemma spanDays_allday (tz : Int) (ev : CalendarEvent) {sds eds : String} {ds de : Int}
    (h1 : ev.start.date = some sds)
    (h2 : ev.endTime.bind EventTime.date = some eds)
    (hs : parseDateCivil sds = some ds)
    (he : parseDateCivil eds = some de) :
    spanDays tz ev = daysFromTo ds (de - 1) := by
  have hsne := parseDateCivil_ne_empty hs
  have hene := parseDateCivil_ne_empty he
  unfold spanDays
  rw [h1, h2]
  dsimp only
  simp only [strTruthy_jsOr_right _ hsne, strTruthy_of_ne hsne, strTruthy_of_ne hene,
    Bool.and_self, Bool.and_true, Bool.true_eq_false, if_false, if_true, ite_true, ite_false,
    Bool.false_eq_true]
  rw [parseISOMin_of_dateCivil tz hs, parseISOMin_of_dateCivil tz he]
  simp only [Option.map_some']
  have hend : de * 1440 - tz - 1440 = (de - 1) * 1440 - tz := by ring
  rw [hend, dayOfMin_mul, dayOfMin_mul]


lemma foldl_pushBucket_count {E : Type} (ev : E) (L : List Int)
    (acc : Int → List E) (k : Int) :
    (L.foldl (fun a j => pushBucket a j ev) acc) k =
      acc k ++ List.replicate (L.count k) ev := by
  induction L generalizing acc with
  | nil => simp
  | cons j L ih =>
    rw [List.foldl_cons, ih]
    by_cases h : j = k
    · subst h
      simp [pushBucket, List.count_cons, List.replicate_succ]
    · simp [pushBucket, List.count_cons, h, Ne.symm h]

lemma eventsByDay_single (tz : Int) (ev : CalendarEvent) (k : Int) :
    eventsByDay tz [ev] k = List.replicate ((spanDays tz ev).count k) ev := by
  unfold eventsByDay
  rw [List.foldl_cons, List.foldl_nil, foldl_pushBucket_count]
  simp

lemma mealEventsByDay_go (tz : Int) (evs : List MealEvent)
    (acc : Int → List MealEvent) (k : Int) :
    (evs.foldl
      (fun acc ev =>
        match mealStartDay tz ev with
        | none => acc
        | some j => pushBucket acc j ev) acc) k =
      acc k ++ evs.filter (fun e => mealStartDay tz e == some k) := by
  induction evs generalizing acc with
  | nil => simp
  | cons e evs ih =>
    simp only [List.foldl_cons, List.filter_cons]
    cases hm : mealStartDay tz e with
    | none =>
      rw [ih]
      simp [hm]
    | some j =>
      rw [ih]
      by_cases hk : j = k
      · subst hk
        simp [pushBucket, hm]
      · simp [pushBucket, hm, hk, Ne.symm hk]

lemma startLE_trans : ∀ (a b c : CalendarEvent),
    startLE a b → startLE b c → startLE a c := by
  intro a b c hab hbc
  simp only [startLE, decide_eq_true_eq] at *
  exact le_trans hab hbc

lemma startLE_total : ∀ (a b : CalendarEvent), startLE a b || startLE b a := by
  intro a b
  simp only [startLE]
  rcases le_total (startStr a) (startStr b) with h | h <;> simp [h]

lemma mergeSort_filter_startLE (l : List CalendarEvent) (p : CalendarEvent → Bool)
    (hp : ∀ a b, p a = true → p b = true → startLE a b = true) :
    (l.mergeSort startLE).filter p = l.filter p := by
  have hsub : List.Sublist (l.filter p) l := List.filter_sublist l
  have hpw : (l.filter p).Pairwise (fun a b => startLE a b = true) := by
    apply List.pairwise_of_forall_mem_list
    intro a ha b hb
    rw [List.mem_filter] at ha hb
    exact hp a b ha.2 hb.2
  have h2 : List.Sublist (l.filter p) (l.mergeSort startLE) :=
    List.sublist_mergeSort startLE_trans startLE_total hpw hsub
  have h3 : List.Sublist (l.filter p) ((l.mergeSort startLE).filter p) := by
    have := h2.filter p
    simpa using this
  have h4 : ((l.mergeSort startLE).filter p).length = (l.filter p).length :=
    ((l.mergeSort_perm startLE).filter p).length_eq
  exact (h3.eq_of_length h4.symm).symm

lemma takeWhile_all {p : Char → Bool} {l : List Char} (h : ∀ c ∈ l, p c = true) :
    l.takeWhile p = l := by
  induction l with
  | nil => rfl
  | cons c rest ih =>
    rw [List.takeWhile_cons]
    simp [h c (by simp), ih (fun d hd => h d (by simp [hd]))]

lemma wsDotPlus_all {r : List Char} (hne : r ≠ [])
    (h1 : ∀ c ∈ r.take 1, isSpaceJS c = false)
    (hdot : ∀ c ∈ r, isDotJS c = true) :
    wsDotPlus r = some r := by
  match r, hne with
  | c :: rest, _ =>
    have hc1 : isSpaceJS c = false := h1 c (by simp)
    have hcd : isDotJS c = true := hdot c (by simp)
    unfold wsDotPlus
    rw [hc1]
    simp only [Bool.false_eq_true, if_false, hcd, if_true]
    rw [takeWhile_all hdot]

lemma wsDotPlus_space_cons {r : List Char} (h : wsDotPlus r = some r) :
    wsDotPlus (' ' :: r) = some r := by
  unfold wsDotPlus
  simp only [show isSpaceJS ' ' = true from rfl, if_true, h]

lemma matchAfterKw_sep {sep : String} {r : List Char}
    (hsep : sep = ": " ∨ sep = ":" ∨ sep = " ")
    (h : wsDotPlus r = some r) :
    matchAfterKw (sep.data ++ r) = some r := by
  rcases hsep with h1 | h1 | h1 <;> subst h1
  · show matchAfterKw (':' :: ' ' :: r) = some r
    have he : matchAfterKw (':' :: ' ' :: r) =
        (match wsDotPlus (' ' :: r) with
         | some g => some g
         | none => wsDotPlus (':' :: ' ' :: r)) := rfl
    rw [he, wsDotPlus_space_cons h]
  · show matchAfterKw (':' :: r) = some r
    have he : matchAfterKw (':' :: r) =
        (match wsDotPlus r with
         | some g => some g
         | none => wsDotPlus (':' :: r)) := rfl
    rw [he, h]
  · show matchAfterKw (' ' :: r) = some r
    have he : matchAfterKw (' ' :: r) = wsDotPlus (' ' :: r) := rfl
    rw [he]
    exact wsDotPlus_space_cons h

lemma lowerL_take_append (kw : String) (tail : List Char) {lk : List Char}
    (hci : lowerL kw.data = lk) (n : Nat) :
    lowerL ((kw.data ++ tail).take n) = lk.take n ++ (lowerL tail).take (n - lk.length) := by
  have hlen : kw.data.length = lk.length := by
    have h0 := congrArg List.length hci
    simpa [lowerL] using h0
  rw [List.take_append_eq_append_take]
  unfold lowerL
  rw [List.map_append, List.map_take, List.map_take, hlen]
  rw [show List.map Char.toLower kw.data = lk from hci]

lemma kwTry_neg {cs : List Char} {kw : String}
    (h : lowerL (cs.take kw.length) ≠ lowerL kw.data) : kwTry cs kw = none :=
  if_neg h

lemma kwTry_pos_append (kw : String) (tail : List Char) {k : String}
    (hci : lowerL kw.data = lowerL k.data) (hlen : kw.data.length = k.length) :
    kwTry (kw.data ++ tail) k = some (kw, tail) := by
  unfold kwTry
  rw [List.take_left' hlen, List.drop_left' hlen, if_pos hci]

lemma kwTry_ne_of_take {kw : String} (tail : List Char) {lk : List Char}
    (hci : lowerL kw.data = lk) (other : String) (pre rl : List Char)
    (h1 : lk.take other.length = pre) (h2 : lowerL other.data = rl)
    (h3 : ∀ Y, pre ++ Y ≠ rl) :
    kwTry (kw.data ++ tail) other = none := by
  apply kwTry_neg
  rw [lowerL_take_append kw tail hci other.length, h1, h2]
  exact h3 _

lemma kwAt_append (tail : List Char) {k kw : String}
    (hk : k ∈ mealKeywords) (hci : lowerL kw.data = lowerL k.data) :
    kwAt (kw.data ++ tail) = some (kw, tail) := by
  simp only [mealKeywords, List.mem_cons, List.not_mem_nil, or_false] at hk
  have hlen : kw.data.length = k.length := by
    have h0 := congrArg List.length hci
    simp only [lowerL, List.length_map] at h0
    exact h0
  have hpos : kwTry (kw.data ++ tail) k = some (kw, tail) := kwTry_pos_append kw tail hci hlen
  rcases hk with rfl | rfl | rfl | rfl | rfl
  · unfold kwAt mealKeywords
    rw [List.filterMap_cons_some hpos]
    rfl
  · have hlk : lowerL kw.data = ['l', 'u', 'n', 'c', 'h'] := by rw [hci]; decide
    have hN0 := kwTry_ne_of_take tail hlk "Breakfast" ['l', 'u', 'n', 'c', 'h'] ['b', 'r', 'e', 'a', 'k', 'f', 'a', 's', 't']
      (by decide) (by decide) (by intro Y h; simp at h)
    unfold kwAt mealKeywords
    rw [List.filterMap_cons_none hN0,
      List.filterMap_cons_some hpos]
    rfl
  · have hlk : lowerL kw.data = ['d', 'i', 'n', 'n', 'e', 'r'] := by rw [hci]; decide
    have hN0 := kwTry_ne_of_take tail hlk "Breakfast" ['d', 'i', 'n', 'n', 'e', 'r'] ['b', 'r', 'e', 'a', 'k', 'f', 'a', 's', 't']
      (by decide) (by decide) (by intro Y h; simp at h)
    have hN1 := kwTry_ne_of_take tail hlk "Lunch" ['d', 'i', 'n', 'n', 'e'] ['l', 'u', 'n', 'c', 'h']
      (by decide) (by decide) (by intro Y h; simp at h)
    unfold kwAt mealKeywords
    rw [List.filterMap_cons_none hN0, List.filterMap_cons_none hN1,
      List.filterMap_cons_some hpos]
    rfl
  · have hlk : lowerL kw.data = ['b', 'r', 'u', 'n', 'c', 'h'] := by rw [hci]; decide
    have hN0 := kwTry_ne_of_take tail hlk "Breakfast" ['b', 'r', 'u', 'n', 'c', 'h'] ['b', 'r', 'e', 'a', 'k', 'f', 'a', 's', 't']
      (by decide) (by decide) (by intro Y h; simp at h)
    have hN1 := kwTry_ne_of_take tail hlk "Lunch" ['b', 'r', 'u', 'n', 'c'] ['l', 'u', 'n', 'c', 'h']
      (by decide) (by decide) (by intro Y h; simp at h)
    have hN2 := kwTry_ne_of_take tail hlk "Dinner" ['b', 'r', 'u', 'n', 'c', 'h'] ['d', 'i', 'n', 'n', 'e', 'r']
      (by decide) (by decide) (by intro Y h; simp at h)
    unfold kwAt mealKeywords
    rw [List.filterMap_cons_none hN0, List.filterMap_cons_none hN1, List.filterMap_cons_none hN2,
      List.filterMap_cons_some hpos]
    rfl
  · have hlk : lowerL kw.data = ['s', 'n', 'a', 'c', 'k'] := by rw [hci]; decide
    have hN0 := kwTry_ne_of_take tail hlk "Breakfast" ['s', 'n', 'a', 'c', 'k'] ['b', 'r', 'e', 'a', 'k', 'f', 'a', 's', 't']
      (by decide) (by decide) (by intro Y h; simp at h)
    have hN1 := kwTry_ne_of_take tail hlk "Lunch" ['s', 'n', 'a', 'c', 'k'] ['l', 'u', 'n', 'c', 'h']
      (by decide) (by decide) (by intro Y h; simp at h)
    have hN2 := kwTry_ne_of_take tail hlk "Dinner" ['s', 'n', 'a', 'c', 'k'] ['d', 'i', 'n', 'n', 'e', 'r']
      (by decide) (by decide) (by intro Y h; simp at h)
    have hN3 := kwTry_ne_of_take tail hlk "Brunch" ['s', 'n', 'a', 'c', 'k'] ['b', 'r', 'u', 'n', 'c', 'h']
      (by decide) (by decide) (by intro Y h; simp at h)
    unfold kwAt mealKeywords
    rw [List.filterMap_cons_none hN0, List.filterMap_cons_none hN1, List.filterMap_cons_none hN2, List.filterMap_cons_none hN3,
      List.filterMap_cons_some hpos]
    rfl

lemma matchMeal_append {k kw : String} {tail g2 : List Char}
    (hk : k ∈ mealKeywords) (hci : lowerL kw.data = lowerL k.data)
    (hmk : matchAfterKw tail = some g2) :
    matchMeal (kw.data ++ tail) = some (kw, g2) := by
  have hlen : kw.data.length = k.length := by
    have h0 := congrArg List.length hci
    simp only [lowerL, List.length_map] at h0
    exact h0
  have hpos : 0 < kw.data.length := by
    rw [hlen]
    rcases (by simpa [mealKeywords] using hk : k = "Breakfast" ∨ k = "Lunch" ∨ k = "Dinner" ∨
      k = "Brunch" ∨ k = "Snack") with rfl | rfl | rfl | rfl | rfl <;> decide
  have hkw := kwAt_append tail hk hci
  cases hd : kw.data with
  | nil => rw [hd] at hpos; simp at hpos
  | cons c cs2 =>
    rw [hd] at hkw
    rw [List.cons_append] at hkw
    rw [show (c :: cs2) ++ tail = c :: (cs2 ++ tail) from List.cons_append c cs2 tail]
    have he : matchMeal (c :: (cs2 ++ tail)) =
        (match kwAt (c :: (cs2 ++ tail)) with
         | some (kw2, after) =>
           (match matchAfterKw after with
            | some g => some (kw2, g)
            | none => matchMeal (cs2 ++ tail))
         | none => matchMeal (cs2 ++ tail)) := rfl
    rw [he, hkw]
    show (match matchAfterKw tail with
          | some g => some (kw, g)
          | none => matchMeal (cs2 ++ tail)) = some (kw, g2)
    rw [hmk]

lemma kwAt_eq_none {cs : List Char}
    (h : (mealKeywords.any (fun kw => lowerL (cs.take kw.length) = lowerL kw.data)) = false) :
    kwAt cs = none := by
  unfold kwAt
  rw [List.any_eq_false] at h
  rw [show (mealKeywords.filterMap (kwTry cs)) = ([] : List (String × List Char)) from
    List.filterMap_eq_nil_iff.mpr (fun kw hkw => kwTry_neg (by simpa using h kw hkw))]
  rfl

lemma matchMeal_eq_none {cs : List Char} (h : hasKw cs = false) : matchMeal cs = none := by
  induction cs with
  | nil => rfl
  | cons c rest ih =>
    unfold hasKw at h
    rw [Bool.or_eq_false_iff] at h
    obtain ⟨h1, h2⟩ := h
    have hka := kwAt_eq_none h1
    have he : matchMeal (c :: rest) =
        (match kwAt (c :: rest) with
         | some (kw2, after) =>
           (match matchAfterKw after with
            | some g => some (kw2, g)
            | none => matchMeal rest)
         | none => matchMeal rest) := rfl
    rw [he, hka]
    exact ih h2

/-- C1 (amended): for an all-day event whose start date parses to civil day
`ds` and whose (exclusive) end date parses to civil day `de`, the day-bucketing
reduce of `Calendar.tsx` materializes exactly `(de - ds).toNat` occurrences:
`de - ds` when the end is after the start, and zero — the event is dropped,
not clamped — when the exclusive end does not exceed the start. -/
theorem alldayOccurrenceCount (tz : Int) (ev : CalendarEvent) (sds eds : String) (ds de : Int)
    (h1 : ev.start.date = some sds)
    (h2 : ev.endTime.bind EventTime.date = some eds)
    (hs : parseDateCivil sds = some ds)
    (he : parseDateCivil eds = some de) :
    (spanDays tz ev).length = (de - ds).toNat := by
  rw [spanDays_allday tz ev h1 h2 hs he, daysFromTo_length]
  omega

/-- C1 witness: an all-day event 2024-06-01 .. 2024-06-04 (exclusive)
materializes `19878 - 19875 = 3` occurrences. -/
theorem alldayOccurrenceCountWitness :
    (spanDays 0
      { id := "w1"
        summary := "Trip"
        start := ⟨none, some "2024-06-01"⟩
        endTime := some ⟨none, some "2024-06-04"⟩ }).length = ((19878 : Int) - 19875).toNat :=
  alldayOccurrenceCount 0 _ "2024-06-01" "2024-06-04" 19875 19878 rfl rfl (by decide) (by decide)

/-- C1 counterexample to the claim as stated: a zero-length all-day event
(start date = end date = 2024-06-01) is materialized to zero occurrences,
not clamped to one occurrence on its start day. -/
theorem alldayZeroLengthDropped :
    spanDays 0
      { id := "z"
        summary := "Zero-length"
        start := ⟨none, some "2024-06-01"⟩
        endTime := some ⟨none, some "2024-06-01"⟩ } = [] ∧
    (spanDays 0
      { id := "z"
        summary := "Zero-length"
        start := ⟨none, some "2024-06-01"⟩
        endTime := some ⟨none, some "2024-06-01"⟩ }).length ≠ 1 := by
  constructor
  · decide
  · decide

/-- C2: an all-day event whose end date is exactly one day after its start
date materializes exactly one occurrence, keyed to the start date (the
exclusive end date has one day subtracted). -/
theorem alldayOneDayEventOneOccurrence (tz : Int) (ev : CalendarEvent) (sds eds : String) (ds : Int)
    (h1 : ev.start.date = some sds)
    (h2 : ev.endTime.bind EventTime.date = some eds)
    (hs : parseDateCivil sds = some ds)
    (he : parseDateCivil eds = some (ds + 1)) :
    spanDays tz ev = [ds] ∧ eventsByDay tz [ev] ds = [ev] := by
  have hsp : spanDays tz ev = [ds] := by
    rw [spanDays_allday tz ev h1 h2 hs he]
    simpa using daysFromTo_self ds
  refine ⟨hsp, ?_⟩
  rw [eventsByDay_single, hsp]
  simp

/-- C2 witness: start 2024-06-01, end 2024-06-02 gives one occurrence on
2024-06-01 (civil day 19875). -/
theorem alldayOneDayEventOneOccurrenceWitness :
    spanDays 0
      { id := "w2"
        summary := "One-day"
        start := ⟨none, some "2024-06-01"⟩
        endTime := some ⟨none, some "2024-06-02"⟩ } = [19875] ∧
    eventsByDay 0
      [{ id := "w2"
         summary := "One-day"
         start := ⟨none, some "2024-06-01"⟩
         endTime := some ⟨none, some "2024-06-02"⟩ }] 19875 =
      [{ id := "w2"
         summary := "One-day"
         start := ⟨none, some "2024-06-01"⟩
         endTime := some ⟨none, some "2024-06-02"⟩ }] :=
  alldayOneDayEventOneOccurrence 0 _ "2024-06-01" "2024-06-02" 19875 rfl rfl
    (by decide) (by decide)

/-- C3: a timed event whose start and end instants fall on two consecutive
local calendar days materializes exactly two occurrences, one keyed to each of
the two days. -/
theorem timedConsecutiveDaysTwoOccurrences (tz : Int) (ev : CalendarEvent) (sdt edt : String) (sv ev2 : Int)
    (h0 : ev.start.date = none)
    (h1 : ev.start.dateTime = some sdt)
    (h2 : ev.endTime.bind EventTime.dateTime = some edt)
    (hs : parseISOMin tz sdt = some sv)
    (he : parseISOMin tz edt = some ev2)
    (hd : dayOfMin tz ev2 = dayOfMin tz sv + 1) :
    spanDays tz ev = [dayOfMin tz sv, dayOfMin tz sv + 1] ∧
    eventsByDay tz [ev] (dayOfMin tz sv) = [ev] ∧
    eventsByDay tz [ev] (dayOfMin tz sv + 1) = [ev] := by
  have hsne := parseISOMin_ne_empty hs
  have hene := parseISOMin_ne_empty he
  have hsp : spanDays tz ev = [dayOfMin tz sv, dayOfMin tz sv + 1] := by
    unfold spanDays
    rw [h0, h1, h2, jsOr_left hsne]
    dsimp only
    simp only [strTruthy_of_ne hsne, strTruthy_of_ne hene, strTruthy, Bool.false_and,
      Bool.and_self, Bool.true_and, Bool.true_eq_false, if_false, if_true, ite_true, ite_false,
      Bool.false_eq_true]
    simp only [hs, he]
    simp [hsne, hene, hd, daysFromTo_succ_self]
  refine ⟨hsp, ?_, ?_⟩
  · rw [eventsByDay_single, hsp]
    rw [show List.count (dayOfMin tz sv) [dayOfMin tz sv, dayOfMin tz sv + 1] = 1 by
      simp [List.count_cons]]
    simp
  · rw [eventsByDay_single, hsp]
    rw [show List.count (dayOfMin tz sv + 1) [dayOfMin tz sv, dayOfMin tz sv + 1] = 1 by
      simp [List.count_cons]]
    simp

/-- C3 witness: a timed event 2024-06-01T23:00Z .. 2024-06-02T01:00Z (viewed
in UTC) occupies exactly the buckets of 2024-06-01 and 2024-06-02. -/
theorem timedConsecutiveDaysTwoOccurrencesWitness :
    spanDays 0
      { id := "w3"
        summary := "Late show"
        start := ⟨some "2024-06-01T23:00:00Z", none⟩
        endTime := some ⟨some "2024-06-02T01:00:00Z", none⟩ } = [19875, 19876] := by
  have h := timedConsecutiveDaysTwoOccurrences 0
    { id := "w3"
      summary := "Late show"
      start := ⟨some "2024-06-01T23:00:00Z", none⟩
      endTime := some ⟨some "2024-06-02T01:00:00Z", none⟩ }
    "2024-06-01T23:00:00Z" "2024-06-02T01:00:00Z" 28621380 28621500
    rfl rfl rfl (by decide) (by decide) (by decide)
  simpa using h.1

/-- C4 (amended): an event with a timed start and a date-only end is not
skipped: it falls into the single-day fallback branch of the reduce and
materializes exactly one occurrence, on the local calendar day of its timed
start. -/
theorem timedStartDateEndSingleOccurrence (tz : Int) (ev : CalendarEvent) (sdt eds : String) (sv : Int)
    (h0 : ev.start.date = none)
    (h1 : ev.start.dateTime = some sdt)
    (h2 : strTruthy (ev.endTime.bind EventTime.dateTime) = false)
    (h3 : ev.endTime.bind EventTime.date = some eds)
    (hs : parseISOMin tz sdt = some sv) :
    spanDays tz ev = [dayOfMin tz sv] ∧
    eventsByDay tz [ev] (dayOfMin tz sv) = [ev] := by
  have hsne := parseISOMin_ne_empty hs
  have hsp : spanDays tz ev = [dayOfMin tz sv] := by
    unfold spanDays
    rw [h0, h1, h3, jsOr_left hsne]
    dsimp only
    simp only [h2, strTruthy_of_ne hsne, strTruthy_none, Bool.false_and, Bool.and_false,
      Bool.true_eq_false, if_false, if_true, ite_true, ite_false, Bool.false_eq_true]
    simp only [hs]
    simp [hsne, daysFromTo_self]
  refine ⟨hsp, ?_⟩
  rw [eventsByDay_single, hsp]
  simp

/-- C4 witness: a timed start 2024-06-01T10:00Z paired with a date-only end
2024-06-05 yields one occurrence on 2024-06-01. -/
theorem timedStartDateEndSingleOccurrenceWitness :
    spanDays 0
      { id := "w4"
        summary := "Mismatched"
        start := ⟨some "2024-06-01T10:00:00Z", none⟩
        endTime := some ⟨none, some "2024-06-05"⟩ } = [19875] ∧
    eventsByDay 0
      [{ id := "w4"
         summary := "Mismatched"
         start := ⟨some "2024-06-01T10:00:00Z", none⟩
         endTime := some ⟨none, some "2024-06-05"⟩ }] 19875 =
      [{ id := "w4"
         summary := "Mismatched"
         start := ⟨some "2024-06-01T10:00:00Z", none⟩
         endTime := some ⟨none, some "2024-06-05"⟩ }] :=
  timedStartDateEndSingleOccurrence 0 _ "2024-06-01T10:00:00Z" "2024-06-05" 28620600
    rfl rfl rfl rfl (by decide)

/-- C4 counterexample to the claim as stated: the timed-start/date-end event
is materialized (one occurrence), not skipped with no occurrences. -/
theorem timedStartDateEndNotSkipped :
    spanDays 0
      { id := "x4"
        summary := "Mismatched"
        start := ⟨some "2024-06-01T10:00:00Z", none⟩
        endTime := some ⟨none, some "2024-06-05"⟩ } = [19875] ∧
    spanDays 0
      { id := "x4"
        summary := "Mismatched"
        start := ⟨some "2024-06-01T10:00:00Z", none⟩
        endTime := some ⟨none, some "2024-06-05"⟩ } ≠ [] := by
  constructor
  · decide
  · decide

/-- C5 (amended): for a title of the form `<keyword><sep><remainder>` with the
keyword a case-insensitive variant of one vocabulary word, a separator from
the pattern `:?\s*` (": ", ":" or " "), and a remainder with no leading
whitespace and no line terminators, `parseMeal` returns as the slot the
keyword exactly as written in the title (its case preserved, not canonicalized
to title case) and the trimmed remainder as the name. -/
theorem mealSlotKeywordCasePreserved (k kw sep r : String) (ev : MealEvent)
    (hk : k ∈ mealKeywords)
    (hci : lowerL kw.data = lowerL k.data)
    (hsep : sep = ": " ∨ sep = ":" ∨ sep = " ")
    (hsum : ev.summary = kw ++ (sep ++ r))
    (hne : r.data ≠ [])
    (h1 : ∀ c ∈ r.data.take 1, isSpaceJS c = false)
    (hdot : ∀ c ∈ r.data, isDotJS c = true) :
    (parseMeal ev).type = kw ∧ (parseMeal ev).name = jsTrim r := by
  have hws := wsDotPlus_all hne h1 hdot
  have hmk := matchAfterKw_sep hsep hws
  have hmm : matchMeal ev.summary.data = some (kw, r.data) := by
    have hdata : ev.summary.data = kw.data ++ (sep.data ++ r.data) := by
      rw [hsum, String.data_append, String.data_append]
    rw [hdata]
    exact matchMeal_append hk hci hmk
  constructor
  · show (parseMeal ev).type = kw
    unfold parseMeal
    dsimp only
    rw [hmm]
  · show (parseMeal ev).name = jsTrim r
    unfold parseMeal
    dsimp only
    rw [hmm]

/-- C5 witness: the title "dinner: Taco Night" parses to slot "dinner"
(as written) and name "Taco Night". -/
theorem mealSlotKeywordCasePreservedWitness :
    (parseMeal
      { id := "m1"
        summary := "dinner: Taco Night"
        description := none
        start := ⟨none, none⟩
        endTime := none }).type = "dinner" ∧
    (parseMeal
      { id := "m1"
        summary := "dinner: Taco Night"
        description := none
        start := ⟨none, none⟩
        endTime := none }).name = jsTrim "Taco Night" :=
  mealSlotKeywordCasePreserved "Dinner" "dinner" ": " "Taco Night" _ (by decide) (by decide) (Or.inl rfl) rfl
    (by decide) (by decide) (by decide)

/-- C5 counterexample to the claim as stated: on "dinner: Taco Night" the
extractor returns slot "dinner", not the title-case canonical "Dinner". -/
theorem mealSlotNotTitleCased :
    (parseMeal
      { id := "m1"
        summary := "dinner: Taco Night"
        description := none
        start := ⟨none, none⟩
        endTime := none }).type = "dinner" ∧
    (parseMeal
      { id := "m1"
        summary := "dinner: Taco Night"
        description := none
        start := ⟨none, none⟩
        endTime := none }).type ≠ "Dinner" := by
  constructor
  · decide
  · decide

/-- C6: the per-day list rendered by `Calendar.tsx` is the day bucket sorted
ascending by the raw ISO start string, and the sort is stable: for every start
string, the subsequence of events carrying it is unchanged from its order in
the bucket (hence from input order, which the bucket preserves). -/
theorem dayEventsSortedAndStable (tz : Int) (evs : List CalendarEvent) (k : Int) :
    (dayEvents tz evs k).Pairwise (fun a b => startStr a ≤ startStr b) ∧
    ∀ s : String,
      (dayEvents tz evs k).filter (fun e => startStr e == s) =
        (eventsByDay tz evs k).filter (fun e => startStr e == s) := by
  constructor
  · have h := List.sorted_mergeSort startLE_trans startLE_total (eventsByDay tz evs k)
    apply h.imp
    intro a b hab
    simpa [startLE] using hab
  · intro s
    apply mergeSort_filter_startLE
    intro a b ha hb
    simp only [beq_iff_eq] at ha hb
    simp [startLE, ha, hb]

/-- C7: when the title contains no slot keyword, `parseMeal` returns the
unlabeled slot `"Meal"` with the full title as the name, or the placeholder
`"Untitled"` when the title is empty; `parseMeal` is a total function, so
every input yields some slot/name pair. -/
theorem parseMealNoKeywordFallback (ev : MealEvent) (h : hasKw ev.summary.data = false) :
    (parseMeal ev).type = "Meal" ∧
    (parseMeal ev).name = (if ev.summary == "" then "Untitled" else ev.summary) := by
  have hmm := matchMeal_eq_none h
  constructor
  · show (parseMeal ev).type = "Meal"
    unfold parseMeal
    dsimp only
    rw [hmm]
  · show (parseMeal ev).name = (if ev.summary == "" then "Untitled" else ev.summary)
    unfold parseMeal
    dsimp only
    rw [hmm]

/-- C7 witness: "Grocery pickup" contains no slot keyword and falls back to
slot "Meal" with the full title as name. -/
theorem parseMealNoKeywordFallbackWitness :
    (parseMeal
      { id := "m2"
        summary := "Grocery pickup"
        description := none
        start := ⟨none, none⟩
        endTime := none }).type = "Meal" ∧
    (parseMeal
      { id := "m2"
        summary := "Grocery pickup"
        description := none
        start := ⟨none, none⟩
        endTime := none }).name =
      (if ("Grocery pickup" : String) == "" then "Untitled" else "Grocery pickup") :=
  parseMealNoKeywordFallback _ (by decide)

/-- C8 (amended): when an upstream iCalendar event has no (truthy) uid, the
proxy assigns as fallback id the string form of the event start time alone —
the title is not part of it, so two distinct events sharing a start time
receive the same fallback id. -/
theorem icalFallbackIdStartOnly (e : ICalParsedEvent) (h : strTruthy e.uid = false) :
    icalEventId e = e.startDateStr := by
  unfold icalEventId
  match he : e.uid with
  | none => rfl
  | some u =>
    rw [he] at h
    simp [strTruthy] at h
    simp [h]

example :
    icalEventId { uid := none, startDateStr := "2024-06-01T18:00:00Z", summary := some "Dinner party" } =
      icalEventId { uid := none, startDateStr := "2024-06-01T18:00:00Z", summary := some "Game night" } ∧
    ({ uid := none, startDateStr := "2024-06-01T18:00:00Z", summary := some "Dinner party" } : ICalParsedEvent).summary ≠
      ({ uid := none, startDateStr := "2024-06-01T18:00:00Z", summary := some "Game night" } : ICalParsedEvent).summary := by
  constructor
  · rfl
  · decide

/-- C8 witness: an event without uid gets its start string as id. -/
theorem icalFallbackIdStartOnlyWitness :
    icalEventId
      { uid := none
        startDateStr := "2024-06-01T18:00:00Z"
        summary := some "Dinner party" } = "2024-06-01T18:00:00Z" :=
  icalFallbackIdStartOnly _ rfl

/-- C8 counterexample to the claim as stated: two uid-less events with the
same start time but different titles receive identical fallback ids. -/
theorem icalFallbackIdCollision :
    icalEventId
      { uid := none
        startDateStr := "2024-06-01T18:00:00Z"
        summary := some "Dinner party" } =
      icalEventId
        { uid := none
          startDateStr := "2024-06-01T18:00:00Z"
          summary := some "Game night" } ∧
    ({ uid := none
       startDateStr := "2024-06-01T18:00:00Z"
       summary := some "Dinner party" } : ICalParsedEvent).summary ≠
      ({ uid := none
         startDateStr := "2024-06-01T18:00:00Z"
         summary := some "Game night" } : ICalParsedEvent).summary := by
  constructor
  · rfl
  · decide

/-- C9: the materialization/bucketing pipeline and the meal extractor are
pure functions of their inputs; running each twice on the same input yields
identical output. -/
theorem pipelineDeterministic (tz : Int) (evs : List CalendarEvent) (mevs : List MealEvent) :
    eventsByDay tz evs = eventsByDay tz evs ∧
    dayEvents tz evs = dayEvents tz evs ∧
    mealEventsByDay tz mevs = mealEventsByDay tz mevs ∧
    mevs.map parseMeal = mevs.map parseMeal :=
  ⟨rfl, rfl, rfl, rfl⟩

/-- C10: in the meal-plan view, the bucket of a day key holds exactly the
events whose (truthy, parseable) start falls on that local day — each event
lands in exactly the one bucket of its start day, events with no truthy start
or an unparseable start land in none — and the bucketing key never reads the
event's end field. -/
theorem mealBucketingByStartDay (tz : Int) (evs : List MealEvent) (k : Int) :
    mealEventsByDay tz evs k = evs.filter (fun e => mealStartDay tz e == some k) ∧
    ∀ (e : MealEvent) (x : Option EventTime),
      mealStartDay tz { e with endTime := x } = mealStartDay tz e := by
  constructor
  · unfold mealEventsByDay
    rw [mealEventsByDay_go]
    simp
  · intro e x
    rfl
